import Mathlib

/-!
Shallow embedding of the inclusion-emulator "staging" module
(`node/subsystem-util/src/inclusion_emulator/staging.rs`).

Modelling conventions:
* `usize` / `u32` block numbers and counters are `Nat`; Rust `checked_sub`
  becomes `checkedSub`, which returns `none` exactly when the subtraction
  would underflow.  The `usize → u32` cast in the validation routine is
  modelled as `% 2 ^ 32`.
* `HashMap` values become association lists (`List (key × value)`); the
  first occurrence of a key is the binding, mirroring `HashMap::get`.
  Rust `HashMap`s always have unique keys, which appears as a
  `(l.map Prod.fst).Nodup` hypothesis where needed.
* `Result<T, E>` becomes `Except E T`.
* Opaque hash/blob types become `Nat` / `List Nat`; only their equality is
  used by the emulator.
-/

namespace Staging

deriving instance DecidableEq for Except

abbrev BlockNumber := Nat

abbrev ParaId := Nat

abbrev Hash := Nat

abbrev HeadData := List Nat

abbrev ValidationCodeHash := Nat

abbrev CollatorId := Nat

abbrev CollatorSignature := Nat

inductive UpgradeGoAhead where
  | Abort
  | GoAhead
deriving DecidableEq

inductive UpgradeRestriction where
  | Present
deriving DecidableEq

/-- Constraints on inbound HRMP channels. -/
structure InboundHrmpLimitations where
  /-- An exhaustive set of all valid watermarks, sorted ascending. -/
  valid_watermarks : List BlockNumber
deriving DecidableEq

/-- Constraints on outbound HRMP channels. -/
structure OutboundHrmpChannelLimitations where
  bytes_remaining : Nat
  messages_remaining : Nat
deriving DecidableEq

/-- Constraints on the actions that can be taken by a new parachain block. -/
structure Constraints where
  ump_remaining : Nat
  ump_remaining_bytes : Nat
  dmp_remaining_messages : Nat
  hrmp_inbound : InboundHrmpLimitations
  hrmp_channels_out : List (ParaId × OutboundHrmpChannelLimitations)
  max_pov_size : Nat
  max_hrmp_num_per_candidate : Nat
  required_parent : HeadData
  validation_code_hash : ValidationCodeHash
  go_ahead : UpgradeGoAhead
  upgrade_restriction : UpgradeRestriction
  future_validation_code : Option (BlockNumber × ValidationCodeHash)
deriving DecidableEq

/-- Kinds of errors that can occur when modifying constraints. -/
inductive ModificationError where
  | DisallowedHrmpWatermark (watermark : BlockNumber)
  | NoSuchHrmpChannel (para_id : ParaId)
  | HrmpMessagesOverflow (para_id : ParaId) (messages_remaining messages_submitted : Nat)
  | HrmpBytesOverflow (para_id : ParaId) (bytes_remaining bytes_submitted : Nat)
  | UmpMessagesOverflow (messages_remaining messages_submitted : Nat)
  | UmpBytesOverflow (bytes_remaining bytes_submitted : Nat)
  | DmpMessagesUnderflow (messages_remaining messages_processed : Nat)
  | AppliedNonexistentCodeUpgrade
deriving DecidableEq

/-- An update to outbound HRMP channels. -/
structure OutboundHrmpChannelModification where
  bytes_submitted : Nat
  messages_submitted : Nat
deriving DecidableEq

instance : Inhabited OutboundHrmpChannelModification := ⟨⟨0, 0⟩⟩

/-- Modifications to constraints as a result of prospective candidates. -/
structure ConstraintModifications where
  required_parent : Option HeadData
  hrmp_watermark : Option BlockNumber
  outbound_hrmp : List (ParaId × OutboundHrmpChannelModification)
  ump_messages_sent : Nat
  ump_bytes_sent : Nat
  dmp_messages_processed : Nat
  code_upgrade_applied : Bool
deriving DecidableEq

/-- Rust `a.checked_sub(b)` on unsigned integers. -/
def checkedSub (a b : Nat) : Option Nat :=
  if b ≤ a then some (a - b) else none

/-- `HashMap::get`: the binding of the first occurrence of a key. -/
def alookup {α : Type} : List (ParaId × α) → ParaId → Option α
  | [], _ => none
  | (k, v) :: rest, id => if k = id then some v else alookup rest id

/-- `HashMap::get_mut` followed by overwriting: replace the value bound to
the first occurrence of the key, leaving the map unchanged if absent. -/
def aupdate {α : Type} : List (ParaId × α) → ParaId → α → List (ParaId × α)
  | [], _, _ => []
  | (k, v) :: rest, id, v' =>
    if k = id then (k, v') :: rest else (k, v) :: aupdate rest id v'

/-- Componentwise addition of outbound-HRMP submission counters. -/
def addMod (x y : OutboundHrmpChannelModification) : OutboundHrmpChannelModification :=
  ⟨x.bytes_submitted + y.bytes_submitted, x.messages_submitted + y.messages_submitted⟩

/-- `entry(id).or_default()` followed by `+=` on both counters: add the given
counters to the binding of `id`, inserting it at the end if absent. -/
def addToMap : List (ParaId × OutboundHrmpChannelModification) → ParaId →
    OutboundHrmpChannelModification → List (ParaId × OutboundHrmpChannelModification)
  | [], id, m => [(id, m)]
  | (k, v) :: rest, id, m =>
    if k = id then (k, addMod v m) :: rest else (k, v) :: addToMap rest id m

/-- Iterator `position(|w| w == &x)`: index of the first occurrence. -/
def position : List BlockNumber → BlockNumber → Option Nat
  | [], _ => none
  | x :: xs, w => if x = w then some 0 else (position xs w).map (· + 1)

/-- The outbound-HRMP counters charged to a destination, zero if absent. -/
def modAt (l : List (ParaId × OutboundHrmpChannelModification)) (k : ParaId) :
    OutboundHrmpChannelModification :=
  (alookup l k).getD ⟨0, 0⟩

/-- The HRMP-watermark check of `Constraints::check_modifications`. -/
def watermarkCheckCore (valid_watermarks : List BlockNumber) :
    Option BlockNumber → Except ModificationError Unit
  | none => Except.ok ()
  | some w =>
    if (position valid_watermarks w).isNone then
      Except.error (ModificationError.DisallowedHrmpWatermark w)
    else Except.ok ()

/-- The HRMP-watermark step of `Constraints::apply_modifications`: find the
watermark's position and `drain(..pos + 1)` (drop it and everything before). -/
def applyWatermark (valid_watermarks : List BlockNumber) :
    Option BlockNumber → Except ModificationError (List BlockNumber)
  | none => Except.ok valid_watermarks
  | some w =>
    match position valid_watermarks w with
    | some pos => Except.ok (valid_watermarks.drop (pos + 1))
    | none => Except.error (ModificationError.DisallowedHrmpWatermark w)

/-- The per-channel outbound-HRMP loop of `check_modifications`. -/
def checkOutbound (channels : List (ParaId × OutboundHrmpChannelLimitations)) :
    List (ParaId × OutboundHrmpChannelModification) → Except ModificationError Unit
  | [] => Except.ok ()
  | (id, em) :: rest =>
    match alookup channels id with
    | none => Except.error (ModificationError.NoSuchHrmpChannel id)
    | some outbound =>
      match checkedSub outbound.bytes_remaining em.bytes_submitted with
      | none => Except.error (ModificationError.HrmpBytesOverflow id
          outbound.bytes_remaining em.bytes_submitted)
      | some _ =>
        match checkedSub outbound.messages_remaining em.messages_submitted with
        | none => Except.error (ModificationError.HrmpMessagesOverflow id
            outbound.messages_remaining em.messages_submitted)
        | some _ => checkOutbound channels rest

/-- The per-channel outbound-HRMP loop of `apply_modifications`, updating the
channel budgets as it goes. -/
def applyOutbound (channels : List (ParaId × OutboundHrmpChannelLimitations)) :
    List (ParaId × OutboundHrmpChannelModification) →
      Except ModificationError (List (ParaId × OutboundHrmpChannelLimitations))
  | [] => Except.ok channels
  | (id, em) :: rest =>
    match alookup channels id with
    | none => Except.error (ModificationError.NoSuchHrmpChannel id)
    | some outbound =>
      match checkedSub outbound.bytes_remaining em.bytes_submitted with
      | none => Except.error (ModificationError.HrmpBytesOverflow id
          outbound.bytes_remaining em.bytes_submitted)
      | some b =>
        match checkedSub outbound.messages_remaining em.messages_submitted with
        | none => Except.error (ModificationError.HrmpMessagesOverflow id
            outbound.messages_remaining em.messages_submitted)
        | some ms => applyOutbound (aupdate channels id ⟨b, ms⟩) rest

/-- `checked_sub(..).ok_or(err)` on a counter. -/
def subOrErr (a b : Nat) (e : ModificationError) : Except ModificationError Nat :=
  match checkedSub a b with
  | some v => Except.ok v
  | none => Except.error e

/-- The code-upgrade check of `check_modifications`. -/
def codeUpgradeCheck (fvc : Option (BlockNumber × ValidationCodeHash)) (applied : Bool) :
    Except ModificationError Unit :=
  if fvc.isNone && applied then
    Except.error ModificationError.AppliedNonexistentCodeUpgrade
  else Except.ok ()

/-- The code-upgrade step of `apply_modifications`: on `code_upgrade_applied`,
`take()` the future validation code (clearing it) and adopt its hash. -/
def applyCodeUpgrade (vch : ValidationCodeHash)
    (fvc : Option (BlockNumber × ValidationCodeHash)) (applied : Bool) :
    Except ModificationError (ValidationCodeHash × Option (BlockNumber × ValidationCodeHash)) :=
  if applied then
    match fvc with
    | none => Except.error ModificationError.AppliedNonexistentCodeUpgrade
    | some nh => Except.ok (nh.2, none)
  else Except.ok (vch, fvc)

/-- `Constraints::check_modifications`: check modifications against
constraints, in source order (watermark, outbound HRMP, UMP messages,
UMP bytes, DMP, code upgrade), surfacing the first failure. -/
def Constraints.check_modifications (self : Constraints) (m : ConstraintModifications) :
    Except ModificationError Unit :=
  (watermarkCheckCore self.hrmp_inbound.valid_watermarks m.hrmp_watermark).bind fun _ =>
  (checkOutbound self.hrmp_channels_out m.outbound_hrmp).bind fun _ =>
  (subOrErr self.ump_remaining m.ump_messages_sent
    (ModificationError.UmpMessagesOverflow self.ump_remaining m.ump_messages_sent)).bind fun _ =>
  (subOrErr self.ump_remaining_bytes m.ump_bytes_sent
    (ModificationError.UmpBytesOverflow self.ump_remaining_bytes m.ump_bytes_sent)).bind fun _ =>
  (subOrErr self.dmp_remaining_messages m.dmp_messages_processed
    (ModificationError.DmpMessagesUnderflow self.dmp_remaining_messages
      m.dmp_messages_processed)).bind fun _ =>
  codeUpgradeCheck self.future_validation_code m.code_upgrade_applied

/-- `Constraints::apply_modifications`: apply modifications to a private copy
of the constraints, step by step in source order; each step reads only fields
the previous steps left untouched, so this applicative form is exact. -/
def Constraints.apply_modifications (self : Constraints) (m : ConstraintModifications) :
    Except ModificationError Constraints :=
  (applyWatermark self.hrmp_inbound.valid_watermarks m.hrmp_watermark).bind fun wms =>
  (applyOutbound self.hrmp_channels_out m.outbound_hrmp).bind fun channels =>
  (subOrErr self.ump_remaining m.ump_messages_sent
    (ModificationError.UmpMessagesOverflow self.ump_remaining m.ump_messages_sent)).bind fun ump =>
  (subOrErr self.ump_remaining_bytes m.ump_bytes_sent
    (ModificationError.UmpBytesOverflow self.ump_remaining_bytes m.ump_bytes_sent)).bind fun umpb =>
  (subOrErr self.dmp_remaining_messages m.dmp_messages_processed
    (ModificationError.DmpMessagesUnderflow self.dmp_remaining_messages
      m.dmp_messages_processed)).bind fun dmp =>
  (applyCodeUpgrade self.validation_code_hash self.future_validation_code
    m.code_upgrade_applied).bind fun cu =>
  Except.ok { self with
    required_parent :=
      match m.required_parent with
      | some p => p
      | none => self.required_parent,
    hrmp_inbound := ⟨wms⟩,
    hrmp_channels_out := channels,
    ump_remaining := ump,
    ump_remaining_bytes := umpb,
    dmp_remaining_messages := dmp,
    validation_code_hash := cu.1,
    future_validation_code := cu.2 }

/-- `ConstraintModifications::identity`. -/
def ConstraintModifications.identity : ConstraintModifications :=
  { required_parent := none
    hrmp_watermark := none
    outbound_hrmp := []
    ump_messages_sent := 0
    ump_bytes_sent := 0
    dmp_messages_processed := 0
    code_upgrade_applied := false }

/-- The outbound-HRMP part of `stack`: fold `other`'s entries into `self`'s
map via `entry(id).or_default()` plus `+=`. -/
def stackMap (self other : List (ParaId × OutboundHrmpChannelModification)) :
    List (ParaId × OutboundHrmpChannelModification) :=
  other.foldl (fun acc e => addToMap acc e.1 e.2) self

/-- `ConstraintModifications::stack`: stack `other`'s modifications on top of
`self`'s (the Rust method mutates `self` in place; here it returns the new
value). -/
def ConstraintModifications.stack (self other : ConstraintModifications) :
    ConstraintModifications :=
  { required_parent :=
      match other.required_parent with
      | some p => some p
      | none => self.required_parent
    hrmp_watermark :=
      match other.hrmp_watermark with
      | some w => some w
      | none => self.hrmp_watermark
    outbound_hrmp := stackMap self.outbound_hrmp other.outbound_hrmp
    ump_messages_sent := self.ump_messages_sent + other.ump_messages_sent
    ump_bytes_sent := self.ump_bytes_sent + other.ump_bytes_sent
    dmp_messages_processed := self.dmp_messages_processed + other.dmp_messages_processed
    code_upgrade_applied := self.code_upgrade_applied || other.code_upgrade_applied }

/-- Information about a relay-chain block. -/
structure RelayChainBlockInfo where
  hash : Hash
  number : BlockNumber
  storage_root : Hash
deriving DecidableEq

/-- An outbound HRMP message declared by a candidate. -/
structure OutboundHrmpMessage where
  recipient : ParaId
  data : List Nat
deriving DecidableEq

/-- The commitments of a candidate (`CandidateCommitments` from the
primitives crate). -/
structure CandidateCommitments where
  upward_messages : List (List Nat)
  horizontal_messages : List OutboundHrmpMessage
  new_validation_code : Option Nat
  head_data : HeadData
  processed_downward_messages : Nat
  hrmp_watermark : BlockNumber
deriving DecidableEq

/-- `PersistedValidationData` from the primitives crate. -/
structure PersistedValidationData where
  parent_head : HeadData
  relay_parent_number : BlockNumber
  relay_parent_storage_root : Hash
  max_pov_size : Nat
deriving DecidableEq

/-- The prospective candidate. -/
structure ProspectiveCandidate where
  commitments : CandidateCommitments
  collator : CollatorId
  collator_signature : CollatorSignature
  persisted_validation_data : PersistedValidationData
  pov_hash : Hash
  validation_code_hash : ValidationCodeHash
deriving DecidableEq

/-- Kinds of errors with the validity of a fragment. -/
inductive FragmentValidityError where
  | ValidationCodeMismatch (expected got : ValidationCodeHash)
  | PersistedValidationDataMismatch (expected got : PersistedValidationData)
  | OutputsInvalid (err : ModificationError)
deriving DecidableEq

/-- A parachain fragment, representing a prospective parachain block. -/
structure Fragment where
  relay_parent : RelayChainBlockInfo
  operating_constraints : Constraints
  candidate : ProspectiveCandidate
  modifications : ConstraintModifications
deriving DecidableEq

/-- The `ConstraintModifications` derived by `Fragment::new` from the
candidate's commitments (the inline block at the start of the constructor). -/
def fragmentModifications (relay_parent : RelayChainBlockInfo)
    (operating_constraints : Constraints) (candidate : ProspectiveCandidate) :
    ConstraintModifications :=
  let commitments := candidate.commitments
  { required_parent := some commitments.head_data
    hrmp_watermark := some commitments.hrmp_watermark
    outbound_hrmp := commitments.horizontal_messages.foldl
      (fun acc message => addToMap acc message.recipient ⟨message.data.length, 1⟩) []
    ump_messages_sent := commitments.upward_messages.length
    ump_bytes_sent := (commitments.upward_messages.map List.length).sum
    dmp_messages_processed := commitments.processed_downward_messages
    code_upgrade_applied :=
      match operating_constraints.future_validation_code with
      | some nh => decide (nh.1 ≤ relay_parent.number)
      | none => false }

/-- The expected persisted-validation-data recomputed by the shared
validation routine (the `usize → u32` cast on `max_pov_size` is `% 2 ^ 32`). -/
def expected_pvd (constraints : Constraints) (relay_parent : RelayChainBlockInfo) :
    PersistedValidationData :=
  { parent_head := constraints.required_parent
    relay_parent_number := relay_parent.number
    relay_parent_storage_root := relay_parent.storage_root
    max_pov_size := constraints.max_pov_size % 2 ^ 32 }

/-- The free function `validate_against_constraints`. -/
def validate_against_constraints (constraints : Constraints)
    (relay_parent : RelayChainBlockInfo) (candidate : ProspectiveCandidate)
    (modifications : ConstraintModifications) : Except FragmentValidityError Unit :=
  if expected_pvd constraints relay_parent ≠ candidate.persisted_validation_data then
    Except.error (FragmentValidityError.PersistedValidationDataMismatch
      (expected_pvd constraints relay_parent) candidate.persisted_validation_data)
  else if constraints.validation_code_hash ≠ candidate.validation_code_hash then
    Except.error (FragmentValidityError.ValidationCodeMismatch
      constraints.validation_code_hash candidate.validation_code_hash)
  else
    match constraints.check_modifications modifications with
    | Except.ok _ => Except.ok ()
    | Except.error e => Except.error (FragmentValidityError.OutputsInvalid e)

/-- `Fragment::new`: derive the modifications, validate, and construct. -/
def Fragment.new (relay_parent : RelayChainBlockInfo)
    (operating_constraints : Constraints) (candidate : ProspectiveCandidate) :
    Except FragmentValidityError Fragment :=
  let modifications := fragmentModifications relay_parent operating_constraints candidate
  match validate_against_constraints operating_constraints relay_parent candidate
      modifications with
  | Except.error e => Except.error e
  | Except.ok _ =>
    Except.ok { relay_parent := relay_parent, operating_constraints := operating_constraints,
                candidate := candidate, modifications := modifications }

/-- `Fragment::validate_against_constraints` (the method). -/
def Fragment.validate_against_constraints_method (self : Fragment)
    (constraints : Constraints) : Except FragmentValidityError Unit :=
  validate_against_constraints constraints self.relay_parent self.candidate
    self.modifications

/-! ### Concrete sample values (used by witness theorems) -/

/-- A sample `Constraints` value with watermarks `[5, 10, 15]` and two
outbound channels. -/
def SampleC : Constraints :=
  { ump_remaining := 4
    ump_remaining_bytes := 10
    dmp_remaining_messages := 2
    hrmp_inbound := ⟨[5, 10, 15]⟩
    hrmp_channels_out := [(1, ⟨100, 3⟩), (2, ⟨50, 2⟩)]
    max_pov_size := 1024
    max_hrmp_num_per_candidate := 2
    required_parent := [7]
    validation_code_hash := 42
    go_ahead := UpgradeGoAhead.Abort
    upgrade_restriction := UpgradeRestriction.Present
    future_validation_code := none }

/-- `SampleC` with a pending code upgrade `(50, 77)`. -/
def SampleC50 : Constraints :=
  { SampleC with future_validation_code := some (50, 77) }

/-- A sample modifications value valid under `SampleC`. -/
def SampleM : ConstraintModifications :=
  { required_parent := some [9]
    hrmp_watermark := some 10
    outbound_hrmp := [(1, ⟨60, 1⟩), (2, ⟨50, 2⟩)]
    ump_messages_sent := 1
    ump_bytes_sent := 3
    dmp_messages_processed := 1
    code_upgrade_applied := false }

/-- The identity modifications with only a watermark `10`. -/
def SampleM10 : ConstraintModifications :=
  { ConstraintModifications.identity with hrmp_watermark := some 10 }

/-- The identity modifications with only a watermark `7` (absent from
`SampleC`'s valid watermarks). -/
def SampleM7 : ConstraintModifications :=
  { ConstraintModifications.identity with hrmp_watermark := some 7 }

/-- The identity modifications with only `code_upgrade_applied` set. -/
def SampleMCode : ConstraintModifications :=
  { ConstraintModifications.identity with code_upgrade_applied := true }

/-- A sample modifications value for `stack`, with a watermark override. -/
def StackA : ConstraintModifications :=
  { required_parent := some [1]
    hrmp_watermark := some 3
    outbound_hrmp := [(1, ⟨5, 1⟩)]
    ump_messages_sent := 1
    ump_bytes_sent := 2
    dmp_messages_processed := 3
    code_upgrade_applied := false }

/-- A second sample modifications value with a conflicting watermark. -/
def StackB : ConstraintModifications :=
  { required_parent := none
    hrmp_watermark := some 4
    outbound_hrmp := [(1, ⟨7, 2⟩), (2, ⟨1, 1⟩)]
    ump_messages_sent := 0
    ump_bytes_sent := 1
    dmp_messages_processed := 0
    code_upgrade_applied := true }

/-- Modifications naming an outbound channel `3` that `SampleC` lacks. -/
def SampleMNoChan : ConstraintModifications :=
  { ConstraintModifications.identity with outbound_hrmp := [(3, ⟨1, 0⟩)] }

/-- Modifications submitting `101` bytes to channel `1` (capacity `100`). -/
def SampleMOver : ConstraintModifications :=
  { ConstraintModifications.identity with outbound_hrmp := [(1, ⟨101, 0⟩)] }

/-- Modifications submitting exactly the remaining `100` bytes to channel
`1`. -/
def SampleMFull : ConstraintModifications :=
  { ConstraintModifications.identity with outbound_hrmp := [(1, ⟨100, 2⟩)] }

/-- The result of applying `SampleMFull` to `SampleC`. -/
def SampleCAfterFull : Constraints :=
  { SampleC with hrmp_channels_out := [(1, ⟨0, 1⟩), (2, ⟨50, 2⟩)] }

/-- The result of applying `SampleM10` to `SampleC`. -/
def SampleCAfter10 : Constraints :=
  { SampleC with hrmp_inbound := ⟨[15]⟩ }

/-- A sample relay-parent. -/
def SampleRP : RelayChainBlockInfo :=
  { hash := 99, number := 8, storage_root := 123 }

/-- A minimal `Constraints` value under which `SampleCand` is valid. -/
def TinyC : Constraints :=
  { ump_remaining := 0
    ump_remaining_bytes := 0
    dmp_remaining_messages := 0
    hrmp_inbound := ⟨[0]⟩
    hrmp_channels_out := []
    max_pov_size := 100
    max_hrmp_num_per_candidate := 0
    required_parent := [7]
    validation_code_hash := 42
    go_ahead := UpgradeGoAhead.Abort
    upgrade_restriction := UpgradeRestriction.Present
    future_validation_code := none }

/-- `TinyC` with a different `max_hrmp_num_per_candidate`. -/
def TinyC' : Constraints :=
  { TinyC with max_hrmp_num_per_candidate := 1 }

/-- A candidate whose persisted validation data matches `TinyC` at
`SampleRP`. -/
def SampleCand : ProspectiveCandidate :=
  { commitments :=
      { upward_messages := []
        horizontal_messages := []
        new_validation_code := none
        head_data := [9]
        processed_downward_messages := 0
        hrmp_watermark := 0 }
    collator := 0
    collator_signature := 0
    persisted_validation_data :=
      { parent_head := [7]
        relay_parent_number := 8
        relay_parent_storage_root := 123
        max_pov_size := 100 }
    pov_hash := 0
    validation_code_hash := 42 }

/-! ### Basic lemmas about the map and arithmetic helpers -/

theorem checkedSub_zero (n : Nat) : checkedSub n 0 = some n := by
  simp [checkedSub]

theorem checkedSub_eq_none_iff (a b : Nat) : checkedSub a b = none ↔ a < b := by
  by_cases h : b ≤ a
  · rw [checkedSub, if_pos h]
    simp
    omega
  · rw [checkedSub, if_neg h]
    simp
    omega

theorem checkedSub_eq_some_iff (a b v : Nat) :
    checkedSub a b = some v ↔ b ≤ a ∧ v = a - b := by
  by_cases h : b ≤ a
  · rw [checkedSub, if_pos h]
    simp
    constructor
    · intro hv
      exact ⟨h, hv.symm⟩
    · intro hv
      exact hv.2.symm
  · rw [checkedSub, if_neg h]
    simp
    omega

theorem alookup_aupdate_ne {α : Type} (l : List (ParaId × α)) (k k' : ParaId) (v : α)
    (h : k' ≠ k) : alookup (aupdate l k v) k' = alookup l k' := by
  induction l with
  | nil => rfl
  | cons e rest ih =>
    obtain ⟨a, b⟩ := e
    by_cases hak : a = k
    · subst hak
      simp [aupdate, alookup, Ne.symm h]
    · by_cases hak' : a = k' <;> simp [aupdate, alookup, hak, hak', h, ih]

theorem alookup_aupdate_self {α : Type} (l : List (ParaId × α)) (k : ParaId) (v : α)
    (h : k ∈ l.map Prod.fst) : alookup (aupdate l k v) k = some v := by
  induction l with
  | nil => simp at h
  | cons e rest ih =>
    obtain ⟨a, b⟩ := e
    by_cases hak : a = k
    · subst hak
      simp [aupdate, alookup]
    · simp only [List.map_cons, List.mem_cons] at h
      rcases h with h | h
      · exact absurd h.symm hak
      · simp [aupdate, alookup, hak, ih h]

theorem alookup_eq_none_iff {α : Type} (l : List (ParaId × α)) (k : ParaId) :
    alookup l k = none ↔ k ∉ l.map Prod.fst := by
  induction l with
  | nil => simp [alookup]
  | cons e rest ih =>
    obtain ⟨a, b⟩ := e
    by_cases hak : a = k
    · subst hak
      simp [alookup]
    · rw [List.map_cons, List.mem_cons]
      simp only [alookup, if_neg hak, ih]
      have hka : ¬k = a := fun hh => hak hh.symm
      tauto

theorem alookup_isSome_iff {α : Type} (l : List (ParaId × α)) (k : ParaId) :
    (alookup l k).isSome = true ↔ k ∈ l.map Prod.fst := by
  rw [← Decidable.not_iff_not, ← alookup_eq_none_iff]
  cases alookup l k <;> simp

theorem addMod_assoc (x y z : OutboundHrmpChannelModification) :
    addMod (addMod x y) z = addMod x (addMod y z) := by
  simp [addMod, Nat.add_assoc]

theorem addMod_comm (x y : OutboundHrmpChannelModification) :
    addMod x y = addMod y x := by
  simp [addMod, Nat.add_comm]

theorem addMod_zero_left (m : OutboundHrmpChannelModification) :
    addMod ⟨0, 0⟩ m = m := by
  simp [addMod]

theorem addMod_zero_right (m : OutboundHrmpChannelModification) :
    addMod m ⟨0, 0⟩ = m := by
  simp [addMod]

theorem alookup_addToMap_ne (acc : List (ParaId × OutboundHrmpChannelModification))
    (k k' : ParaId) (m : OutboundHrmpChannelModification) (h : k' ≠ k) :
    alookup (addToMap acc k m) k' = alookup acc k' := by
  induction acc with
  | nil => simp [addToMap, alookup, Ne.symm h]
  | cons e rest ih =>
    obtain ⟨a, b⟩ := e
    by_cases hak : a = k
    · subst hak
      simp [addToMap, alookup, Ne.symm h]
    · by_cases hak' : a = k' <;> simp [addToMap, alookup, hak, hak', h, ih]

theorem modAt_addToMap_self (acc : List (ParaId × OutboundHrmpChannelModification))
    (k : ParaId) (m : OutboundHrmpChannelModification) :
    modAt (addToMap acc k m) k = addMod (modAt acc k) m := by
  induction acc with
  | nil => simp [addToMap, alookup, modAt, addMod_zero_left]
  | cons e rest ih =>
    obtain ⟨a, b⟩ := e
    by_cases hak : a = k
    · subst hak
      simp [addToMap, alookup, modAt]
    · simp only [modAt] at ih
      simp [addToMap, alookup, modAt, hak, ih]

theorem modAt_addToMap_ne (acc : List (ParaId × OutboundHrmpChannelModification))
    (k k' : ParaId) (m : OutboundHrmpChannelModification) (h : k' ≠ k) :
    modAt (addToMap acc k m) k' = modAt acc k' := by
  simp [modAt, alookup_addToMap_ne acc k k' m h]

theorem mem_keys_addToMap_iff (acc : List (ParaId × OutboundHrmpChannelModification))
    (k k' : ParaId) (m : OutboundHrmpChannelModification) :
    k' ∈ (addToMap acc k m).map Prod.fst ↔ k' ∈ acc.map Prod.fst ∨ k' = k := by
  induction acc with
  | nil => simp [addToMap]
  | cons e rest ih =>
    obtain ⟨a, b⟩ := e
    by_cases hak : a = k
    · subst hak
      simp [addToMap]
      tauto
    · simp [addToMap, hak, ih]
      tauto

theorem mem_keys_addToMap_self (acc : List (ParaId × OutboundHrmpChannelModification))
    (k : ParaId) (m : OutboundHrmpChannelModification) :
    k ∈ (addToMap acc k m).map Prod.fst := by
  rw [mem_keys_addToMap_iff]
  exact Or.inr rfl

theorem mem_keys_addToMap_of_mem (acc : List (ParaId × OutboundHrmpChannelModification))
    (k k' : ParaId) (m : OutboundHrmpChannelModification)
    (h : k' ∈ acc.map Prod.fst) : k' ∈ (addToMap acc k m).map Prod.fst := by
  rw [mem_keys_addToMap_iff]
  exact Or.inl h

theorem addToMap_same (acc : List (ParaId × OutboundHrmpChannelModification))
    (k : ParaId) (v m : OutboundHrmpChannelModification) :
    addToMap (addToMap acc k v) k m = addToMap acc k (addMod v m) := by
  induction acc with
  | nil => simp [addToMap]
  | cons e rest ih =>
    obtain ⟨a, b⟩ := e
    by_cases hak : a = k
    · subst hak
      simp [addToMap, addMod_assoc]
    · simp [addToMap, hak, ih]

theorem addToMap_comm_of_mem (acc : List (ParaId × OutboundHrmpChannelModification))
    (k k' : ParaId) (m m' : OutboundHrmpChannelModification)
    (hk : k ∈ acc.map Prod.fst) :
    addToMap (addToMap acc k m) k' m' = addToMap (addToMap acc k' m') k m := by
  by_cases hkk : k = k'
  · subst hkk
    rw [addToMap_same, addToMap_same, addMod_comm]
  · induction acc with
    | nil => simp at hk
    | cons e rest ih =>
      obtain ⟨a, b⟩ := e
      by_cases hak : a = k
      · subst hak
        simp [addToMap, hkk]
      · simp only [List.map_cons, List.mem_cons] at hk
        rcases hk with hk | hk
        · exact absurd hk.symm hak
        · by_cases hak' : a = k' <;>
            simp [addToMap, hak, hak', hkk, Ne.symm hkk, ih hk]

/-! ### Lemmas about `stackMap` -/

theorem stackMap_nil (s : List (ParaId × OutboundHrmpChannelModification)) :
    stackMap s [] = s := rfl

theorem stackMap_cons (s : List (ParaId × OutboundHrmpChannelModification))
    (k : ParaId) (v : OutboundHrmpChannelModification)
    (rest : List (ParaId × OutboundHrmpChannelModification)) :
    stackMap s ((k, v) :: rest) = stackMap (addToMap s k v) rest := rfl

theorem addToMap_stackMap_of_mem (rest : List (ParaId × OutboundHrmpChannelModification)) :
    ∀ (a : List (ParaId × OutboundHrmpChannelModification)) (k : ParaId)
      (m : OutboundHrmpChannelModification), k ∈ a.map Prod.fst →
      addToMap (stackMap a rest) k m = stackMap (addToMap a k m) rest := by
  induction rest with
  | nil =>
    intro a k m _
    rfl
  | cons e rest' ih =>
    intro a k m hk
    obtain ⟨k1, v1⟩ := e
    rw [stackMap_cons, stackMap_cons]
    rw [ih (addToMap a k1 v1) k m (mem_keys_addToMap_of_mem a k1 k v1 hk)]
    rw [addToMap_comm_of_mem a k k1 m v1 hk]

theorem stackMap_addToMap (b : List (ParaId × OutboundHrmpChannelModification)) :
    ∀ (a : List (ParaId × OutboundHrmpChannelModification)) (k : ParaId)
      (m : OutboundHrmpChannelModification),
      stackMap a (addToMap b k m) = addToMap (stackMap a b) k m := by
  induction b with
  | nil =>
    intro a k m
    rfl
  | cons e rest ih =>
    intro a k m
    obtain ⟨k', v⟩ := e
    by_cases h : k' = k
    · subst h
      rw [show addToMap ((k', v) :: rest) k' m = (k', addMod v m) :: rest by
        simp [addToMap]]
      rw [stackMap_cons, ← addToMap_same]
      rw [← addToMap_stackMap_of_mem rest (addToMap a k' v) k' m
        (mem_keys_addToMap_self a k' v)]
      rw [stackMap_cons]
    · rw [show addToMap ((k', v) :: rest) k m = (k', v) :: addToMap rest k m by
        simp [addToMap, h]]
      rw [stackMap_cons, stackMap_cons]
      exact ih (addToMap a k' v) k m

theorem stackMap_assoc (c : List (ParaId × OutboundHrmpChannelModification)) :
    ∀ (a b : List (ParaId × OutboundHrmpChannelModification)),
      stackMap (stackMap a b) c = stackMap a (stackMap b c) := by
  induction c with
  | nil =>
    intro a b
    rfl
  | cons e rest ih =>
    intro a b
    obtain ⟨k, v⟩ := e
    rw [show stackMap b ((k, v) :: rest) = stackMap (addToMap b k v) rest from rfl]
    rw [stackMap_cons, ← stackMap_addToMap b a k v]
    exact ih a (addToMap b k v)

theorem modAt_stackMap (o : List (ParaId × OutboundHrmpChannelModification)) :
    ∀ (s : List (ParaId × OutboundHrmpChannelModification)),
      (o.map Prod.fst).Nodup → ∀ k,
      modAt (stackMap s o) k = addMod (modAt s k) (modAt o k) := by
  induction o with
  | nil =>
    intro s _ k
    simp [stackMap, modAt, alookup, addMod_zero_right]
  | cons e rest ih =>
    intro s hnd k
    obtain ⟨k1, m1⟩ := e
    rw [List.map_cons, List.nodup_cons] at hnd
    rw [stackMap_cons]
    rw [ih (addToMap s k1 m1) hnd.2 k]
    by_cases h : k = k1
    · subst h
      rw [modAt_addToMap_self]
      have hnone : alookup rest k = none := (alookup_eq_none_iff rest k).mpr hnd.1
      simp [modAt, alookup, hnone, addMod_zero_right, addMod_assoc]
    · rw [modAt_addToMap_ne s k1 k m1 h]
      have hk1 : ¬k1 = k := fun hh => h hh.symm
      simp [modAt, alookup, hk1]

/-! ### Lemmas about `position` and watermark consumption -/

theorem position_eq_none_iff (l : List BlockNumber) (w : BlockNumber) :
    position l w = none ↔ w ∉ l := by
  induction l with
  | nil => simp [position]
  | cons x xs ih =>
    by_cases h : x = w
    · subst h
      simp [position]
    · have hwx : ¬w = x := fun hh => h hh.symm
      simp [position, h, hwx, Option.map_eq_none', ih]

theorem position_some_mem (l : List BlockNumber) (w : BlockNumber) (p : Nat)
    (h : position l w = some p) : w ∈ l := by
  by_contra hw
  rw [← position_eq_none_iff] at hw
  rw [h] at hw
  cases hw

theorem position_isSome_of_mem (l : List BlockNumber) (w : BlockNumber)
    (h : w ∈ l) : (position l w).isSome = true := by
  cases hp : position l w with
  | none => exact absurd ((position_eq_none_iff l w).mp hp) (by simp [h])
  | some p => rfl

theorem drop_position_sorted (l : List BlockNumber) :
    ∀ (w : BlockNumber) (p : Nat), l.Pairwise (· < ·) → position l w = some p →
      l.drop (p + 1) = l.filter (fun x => w < x) := by
  induction l with
  | nil =>
    intro w p _ h
    cases h
  | cons x xs ih =>
    intro w p hp hpos
    rw [List.pairwise_cons] at hp
    by_cases h : x = w
    · subst h
      rw [show position (x :: xs) x = some 0 by simp [position]] at hpos
      injection hpos with h0
      subst h0
      rw [show (x :: xs).drop (0 + 1) = xs from rfl]
      rw [show (x :: xs).filter (fun y => x < y) = xs.filter (fun y => x < y) by
        simp [List.filter_cons]]
      exact (List.filter_eq_self.mpr fun a ha => by simpa using hp.1 a ha).symm
    · rw [show position (x :: xs) w = (position xs w).map (· + 1) by
        simp [position, h]] at hpos
      rw [Option.map_eq_some'] at hpos
      obtain ⟨p', hp', hpp⟩ := hpos
      subst hpp
      have hw : w ∈ xs := position_some_mem xs w p' hp'
      have hxw : x < w := hp.1 w hw
      have hnwx : ¬w < x := Nat.lt_asymm hxw
      rw [show (x :: xs).drop (p' + 1 + 1) = xs.drop (p' + 1) from rfl]
      rw [ih w p' hp.2 hp']
      simp [List.filter_cons, hnwx]

/-! ### Agreement between `check_modifications` and `apply_modifications` -/

theorem watermark_agree (wms : List BlockNumber) (wm : Option BlockNumber) :
    watermarkCheckCore wms wm = Except.map (fun _ => ()) (applyWatermark wms wm) := by
  cases wm with
  | none => rfl
  | some w =>
    cases h : position wms w with
    | none => simp [watermarkCheckCore, applyWatermark, h, Except.map]
    | some p => simp [watermarkCheckCore, applyWatermark, h, Except.map]

theorem code_agree (vch : ValidationCodeHash)
    (fvc : Option (BlockNumber × ValidationCodeHash)) (applied : Bool) :
    codeUpgradeCheck fvc applied
      = Except.map (fun _ => ()) (applyCodeUpgrade vch fvc applied) := by
  cases applied <;> cases fvc <;>
    simp [codeUpgradeCheck, applyCodeUpgrade, Except.map, Option.isNone]

theorem outbound_agree (entries : List (ParaId × OutboundHrmpChannelModification)) :
    ∀ (channels0 ch : List (ParaId × OutboundHrmpChannelLimitations)),
      (∀ k, k ∈ entries.map Prod.fst → alookup ch k = alookup channels0 k) →
      (entries.map Prod.fst).Nodup →
      checkOutbound channels0 entries
        = Except.map (fun _ => ()) (applyOutbound ch entries) := by
  induction entries with
  | nil =>
    intro channels0 ch _ _
    rfl
  | cons e rest ih =>
    intro channels0 ch hag hnd
    obtain ⟨id, em⟩ := e
    rw [List.map_cons, List.nodup_cons] at hnd
    have hid : alookup ch id = alookup channels0 id := hag id (by simp)
    rw [checkOutbound, applyOutbound, hid]
    cases hc : alookup channels0 id with
    | none => simp [Except.map]
    | some outbound =>
      cases hb : checkedSub outbound.bytes_remaining em.bytes_submitted with
      | none => simp [hb, Except.map]
      | some b =>
        cases hm : checkedSub outbound.messages_remaining em.messages_submitted with
        | none => simp [hb, hm, Except.map]
        | some ms =>
          simp only [hb, hm]
          exact ih channels0 (aupdate ch id ⟨b, ms⟩)
            (fun k hk => by
              rw [alookup_aupdate_ne ch id k ⟨b, ms⟩ (fun hh => hnd.1 (hh ▸ hk))]
              exact hag k (by simp [hk]))
            hnd.2

theorem check_eq_map_apply (c : Constraints) (m : ConstraintModifications)
    (hnd : (m.outbound_hrmp.map Prod.fst).Nodup) :
    c.check_modifications m = Except.map (fun _ => ()) (c.apply_modifications m) := by
  rw [Constraints.check_modifications, Constraints.apply_modifications]
  rw [watermark_agree c.hrmp_inbound.valid_watermarks m.hrmp_watermark]
  rw [outbound_agree m.outbound_hrmp c.hrmp_channels_out c.hrmp_channels_out
    (fun _ _ => rfl) hnd]
  rw [code_agree c.validation_code_hash c.future_validation_code m.code_upgrade_applied]
  cases h1 : applyWatermark c.hrmp_inbound.valid_watermarks m.hrmp_watermark with
  | error e => simp [Except.map, Except.bind]
  | ok wms =>
    cases h2 : applyOutbound c.hrmp_channels_out m.outbound_hrmp with
    | error e => simp [Except.map, Except.bind]
    | ok channels =>
      cases h3 : subOrErr c.ump_remaining m.ump_messages_sent
          (ModificationError.UmpMessagesOverflow c.ump_remaining m.ump_messages_sent) with
      | error e => simp [Except.map, Except.bind]
      | ok ump =>
        cases h4 : subOrErr c.ump_remaining_bytes m.ump_bytes_sent
            (ModificationError.UmpBytesOverflow c.ump_remaining_bytes m.ump_bytes_sent) with
        | error e => simp [Except.map, Except.bind]
        | ok umpb =>
          cases h5 : subOrErr c.dmp_remaining_messages m.dmp_messages_processed
              (ModificationError.DmpMessagesUnderflow c.dmp_remaining_messages
                m.dmp_messages_processed) with
          | error e => simp [Except.map, Except.bind]
          | ok dmp =>
            cases h6 : applyCodeUpgrade c.validation_code_hash
                c.future_validation_code m.code_upgrade_applied with
            | error e => simp [Except.map, Except.bind]
            | ok cu => simp [Except.map, Except.bind]

/-! ### Small `Except` utilities -/

theorem bind_eq_ok_iff {ε α β : Type} (x : Except ε α) (f : α → Except ε β) (b : β) :
    x.bind f = Except.ok b ↔ ∃ a, x = Except.ok a ∧ f a = Except.ok b := by
  cases x <;> simp [Except.bind]

theorem bind_eq_error_iff {ε α β : Type} (x : Except ε α) (f : α → Except ε β) (e : ε) :
    x.bind f = Except.error e
      ↔ x = Except.error e ∨ ∃ a, x = Except.ok a ∧ f a = Except.error e := by
  cases x <;> simp [Except.bind]

theorem map_unit_eq_ok {ε α : Type} (x : Except ε α) :
    Except.map (fun _ => ()) x = Except.ok () ↔ ∃ a, x = Except.ok a := by
  cases x <;> simp [Except.map]

theorem map_unit_eq_error {ε α : Type} (x : Except ε α) (e : ε) :
    Except.map (fun _ => ()) x = Except.error e ↔ x = Except.error e := by
  cases x <;> simp [Except.map]

/-! ### Characterizing the outbound loops -/

theorem checkOutbound_append (pre : List (ParaId × OutboundHrmpChannelModification)) :
    ∀ (channels : List (ParaId × OutboundHrmpChannelLimitations))
      (post : List (ParaId × OutboundHrmpChannelModification)),
      checkOutbound channels (pre ++ post)
        = (checkOutbound channels pre).bind fun _ => checkOutbound channels post := by
  induction pre with
  | nil =>
    intro channels post
    simp [checkOutbound, Except.bind]
  | cons e rest ih =>
    intro channels post
    obtain ⟨id, em⟩ := e
    rw [List.cons_append, checkOutbound, checkOutbound]
    cases hc : alookup channels id with
    | none => simp [hc, Except.bind]
    | some outbound =>
      cases hb : checkedSub outbound.bytes_remaining em.bytes_submitted with
      | none => simp [hb, Except.bind]
      | some b =>
        cases hm : checkedSub outbound.messages_remaining em.messages_submitted with
        | none => simp [hb, hm, Except.bind]
        | some ms =>
          simp only [hb, hm]
          exact ih channels post

theorem applyOutbound_append (pre : List (ParaId × OutboundHrmpChannelModification)) :
    ∀ (channels : List (ParaId × OutboundHrmpChannelLimitations))
      (post : List (ParaId × OutboundHrmpChannelModification)),
      applyOutbound channels (pre ++ post)
        = (applyOutbound channels pre).bind fun ch => applyOutbound ch post := by
  induction pre with
  | nil =>
    intro channels post
    simp [applyOutbound, Except.bind]
  | cons e rest ih =>
    intro channels post
    obtain ⟨id, em⟩ := e
    rw [List.cons_append, applyOutbound, applyOutbound]
    cases hc : alookup channels id with
    | none => simp [hc, Except.bind]
    | some outbound =>
      cases hb : checkedSub outbound.bytes_remaining em.bytes_submitted with
      | none => simp [hb, Except.bind]
      | some b =>
        cases hm : checkedSub outbound.messages_remaining em.messages_submitted with
        | none => simp [hb, hm, Except.bind]
        | some ms =>
          simp only [hb, hm]
          exact ih (aupdate channels id ⟨b, ms⟩) post

theorem applyOutbound_alookup_not_mem
    (entries : List (ParaId × OutboundHrmpChannelModification)) :
    ∀ (ch ch' : List (ParaId × OutboundHrmpChannelLimitations)),
      applyOutbound ch entries = Except.ok ch' →
      ∀ k, k ∉ entries.map Prod.fst → alookup ch' k = alookup ch k := by
  induction entries with
  | nil =>
    intro ch ch' h k _
    rw [applyOutbound] at h
    injection h with h
    rw [h]
  | cons e rest ih =>
    intro ch ch' h k hk
    obtain ⟨id, em⟩ := e
    rw [List.map_cons, List.mem_cons] at hk
    push_neg at hk
    rw [applyOutbound] at h
    cases hc : alookup ch id with
    | none =>
      simp only [hc] at h
      exact Except.noConfusion h
    | some outbound =>
      simp only [hc] at h
      cases hb : checkedSub outbound.bytes_remaining em.bytes_submitted with
      | none =>
        simp only [hb] at h
        exact Except.noConfusion h
      | some b =>
        simp only [hb] at h
        cases hm : checkedSub outbound.messages_remaining em.messages_submitted with
        | none =>
          simp only [hm] at h
          exact Except.noConfusion h
        | some ms =>
          simp only [hm] at h
          rw [ih (aupdate ch id ⟨b, ms⟩) ch' h k hk.2]
          exact alookup_aupdate_ne ch id k ⟨b, ms⟩ hk.1

theorem applyOutbound_alookup_mem
    (entries : List (ParaId × OutboundHrmpChannelModification)) :
    ∀ (ch ch' : List (ParaId × OutboundHrmpChannelLimitations)),
      applyOutbound ch entries = Except.ok ch' →
      (entries.map Prod.fst).Nodup →
      ∀ id em, (id, em) ∈ entries →
      ∀ lim, alookup ch id = some lim →
        em.bytes_submitted ≤ lim.bytes_remaining
        ∧ em.messages_submitted ≤ lim.messages_remaining
        ∧ alookup ch' id = some ⟨lim.bytes_remaining - em.bytes_submitted,
            lim.messages_remaining - em.messages_submitted⟩ := by
  induction entries with
  | nil =>
    intro ch ch' _ _ id em hmem
    cases hmem
  | cons e rest ih =>
    intro ch ch' h hnd id em hmem lim hlim
    obtain ⟨id0, em0⟩ := e
    rw [List.map_cons, List.nodup_cons] at hnd
    rw [applyOutbound] at h
    rcases List.mem_cons.mp hmem with heq | hmemr
    · have hid0 : id = id0 := congrArg Prod.fst heq
      have hem0 : em = em0 := congrArg Prod.snd heq
      subst hid0
      subst hem0
      simp only [hlim] at h
      cases hb : checkedSub lim.bytes_remaining em.bytes_submitted with
      | none =>
        simp only [hb] at h
        exact Except.noConfusion h
      | some b =>
        simp only [hb] at h
        cases hm : checkedSub lim.messages_remaining em.messages_submitted with
        | none =>
          simp only [hm] at h
          exact Except.noConfusion h
        | some ms =>
          simp only [hm] at h
          obtain ⟨hble, hbv⟩ := (checkedSub_eq_some_iff _ _ _).mp hb
          obtain ⟨hmle, hmv⟩ := (checkedSub_eq_some_iff _ _ _).mp hm
          refine ⟨hble, hmle, ?_⟩
          rw [applyOutbound_alookup_not_mem rest (aupdate ch id ⟨b, ms⟩) ch' h id hnd.1]
          rw [alookup_aupdate_self ch id ⟨b, ms⟩
            ((alookup_isSome_iff ch id).mp (by rw [hlim]; rfl))]
          rw [hbv, hmv]
    · have hne : id ≠ id0 := by
        intro hh
        subst hh
        exact hnd.1 (List.mem_map.mpr ⟨(id, em), hmemr, rfl⟩)
      cases hc : alookup ch id0 with
      | none =>
        simp only [hc] at h
        exact Except.noConfusion h
      | some outbound =>
        simp only [hc] at h
        cases hb : checkedSub outbound.bytes_remaining em0.bytes_submitted with
        | none =>
          simp only [hb] at h
          exact Except.noConfusion h
        | some b =>
          simp only [hb] at h
          cases hm : checkedSub outbound.messages_remaining em0.messages_submitted with
          | none =>
            simp only [hm] at h
            exact Except.noConfusion h
          | some ms =>
            simp only [hm] at h
            exact ih (aupdate ch id0 ⟨b, ms⟩) ch' h hnd.2 id em hmemr lim
              (by rw [alookup_aupdate_ne ch id0 id ⟨b, ms⟩ hne]; exact hlim)

/-! ### Decomposing a successful `apply_modifications` -/

theorem apply_modifications_ok_decomp (c : Constraints) (m : ConstraintModifications)
    (c' : Constraints) (h : c.apply_modifications m = Except.ok c') :
    ∃ wms channels ump umpb dmp cu,
      applyWatermark c.hrmp_inbound.valid_watermarks m.hrmp_watermark = Except.ok wms
      ∧ applyOutbound c.hrmp_channels_out m.outbound_hrmp = Except.ok channels
      ∧ subOrErr c.ump_remaining m.ump_messages_sent
          (ModificationError.UmpMessagesOverflow c.ump_remaining m.ump_messages_sent)
          = Except.ok ump
      ∧ subOrErr c.ump_remaining_bytes m.ump_bytes_sent
          (ModificationError.UmpBytesOverflow c.ump_remaining_bytes m.ump_bytes_sent)
          = Except.ok umpb
      ∧ subOrErr c.dmp_remaining_messages m.dmp_messages_processed
          (ModificationError.DmpMessagesUnderflow c.dmp_remaining_messages
            m.dmp_messages_processed) = Except.ok dmp
      ∧ applyCodeUpgrade c.validation_code_hash c.future_validation_code
          m.code_upgrade_applied = Except.ok cu
      ∧ c' = { c with
          required_parent :=
            match m.required_parent with
            | some p => p
            | none => c.required_parent,
          hrmp_inbound := ⟨wms⟩,
          hrmp_channels_out := channels,
          ump_remaining := ump,
          ump_remaining_bytes := umpb,
          dmp_remaining_messages := dmp,
          validation_code_hash := cu.1,
          future_validation_code := cu.2 } := by
  rw [Constraints.apply_modifications] at h
  rw [bind_eq_ok_iff] at h
  obtain ⟨wms, h1, h⟩ := h
  rw [bind_eq_ok_iff] at h
  obtain ⟨channels, h2, h⟩ := h
  rw [bind_eq_ok_iff] at h
  obtain ⟨ump, h3, h⟩ := h
  rw [bind_eq_ok_iff] at h
  obtain ⟨umpb, h4, h⟩ := h
  rw [bind_eq_ok_iff] at h
  obtain ⟨dmp, h5, h⟩ := h
  rw [bind_eq_ok_iff] at h
  obtain ⟨cu, h6, h⟩ := h
  injection h with h
  exact ⟨wms, channels, ump, umpb, dmp, cu, h1, h2, h3, h4, h5, h6, h.symm⟩

theorem subOrErr_eq_ok_iff (a b : Nat) (e : ModificationError) (v : Nat) :
    subOrErr a b e = Except.ok v ↔ b ≤ a ∧ v = a - b := by
  by_cases h : b ≤ a
  · rw [subOrErr, checkedSub, if_pos h]
    simp [h]
    exact eq_comm
  · rw [subOrErr, checkedSub, if_neg h]
    simp [h]

theorem subOrErr_self_ok (a : Nat) (e : ModificationError) :
    subOrErr a 0 e = Except.ok a := by
  rw [subOrErr, checkedSub_zero]

/-! ### Claim theorems -/

/-- Claim C6: applying the identity `ConstraintModifications` to any `Constraints`
value succeeds and returns a value equal to the original. -/
theorem c6_apply_identity (c : Constraints) :
    c.apply_modifications ConstraintModifications.identity = Except.ok c := by
  rw [Constraints.apply_modifications]
  simp [ConstraintModifications.identity, applyWatermark, applyOutbound,
    subOrErr_self_ok, applyCodeUpgrade, Except.bind]

/-- Claim C8: `stack` is an associative binary operation on
`ConstraintModifications`. -/
theorem c8_stack_assoc (a b c : ConstraintModifications) :
    (a.stack b).stack c = a.stack (b.stack c) := by
  simp only [ConstraintModifications.stack]
  simp only [ConstraintModifications.mk.injEq]
  refine ⟨?_, ?_, ?_, ?_, ?_, ?_, ?_⟩
  · cases hc : c.required_parent <;> cases hb : b.required_parent <;> simp [hc, hb]
  · cases hc : c.hrmp_watermark <;> cases hb : b.hrmp_watermark <;> simp [hc, hb]
  · exact stackMap_assoc c.outbound_hrmp a.outbound_hrmp b.outbound_hrmp
  · exact Nat.add_assoc _ _ _
  · exact Nat.add_assoc _ _ _
  · exact Nat.add_assoc _ _ _
  · exact Bool.or_assoc _ _ _

/-- Claim C1: for every `Constraints` value `c` and every `ConstraintModifications`
value `m` (with unique outbound keys, as for a Rust `HashMap`),
`check_modifications` succeeds if and only if `apply_modifications` succeeds
(indeed they agree error-for-error); both are pure functions of their inputs,
so `c` itself is never altered and no partial result escapes. -/
theorem c1_check_iff_apply (c : Constraints) (m : ConstraintModifications)
    (hnd : (m.outbound_hrmp.map Prod.fst).Nodup) :
    c.check_modifications m = Except.map (fun _ => ()) (c.apply_modifications m)
    ∧ ((c.check_modifications m = Except.ok ())
        ↔ ∃ c', c.apply_modifications m = Except.ok c') := by
  refine ⟨check_eq_map_apply c m hnd, ?_⟩
  rw [check_eq_map_apply c m hnd]
  exact map_unit_eq_ok (c.apply_modifications m)

/-- Witness for C1 at concrete inputs. -/
theorem c1_check_iff_apply_witness :
    SampleC.check_modifications SampleM
        = Except.map (fun _ => ()) (SampleC.apply_modifications SampleM)
    ∧ ((SampleC.check_modifications SampleM = Except.ok ())
        ↔ ∃ c', SampleC.apply_modifications SampleM = Except.ok c') :=
  c1_check_iff_apply SampleC SampleM (by decide)

/-- Claim C3: with strictly ascending valid watermarks, a watermark modification
`some w` consumes `w` and every earlier entry on success, succeeds whenever
`w` occurs in the list (all other checks passing, e.g. for the otherwise
identity modifications), and fails in both `check_modifications` and
`apply_modifications` with `DisallowedHrmpWatermark w` when `w` is absent. -/
theorem c3_watermark (c : Constraints) (m : ConstraintModifications) (w : BlockNumber)
    (hsorted : c.hrmp_inbound.valid_watermarks.Pairwise (· < ·))
    (hm : m.hrmp_watermark = some w) :
    (∀ c', c.apply_modifications m = Except.ok c' →
        c'.hrmp_inbound.valid_watermarks
          = c.hrmp_inbound.valid_watermarks.filter (fun x => w < x))
  ∧ (w ∈ c.hrmp_inbound.valid_watermarks →
      ∃ c', c.apply_modifications
          { ConstraintModifications.identity with hrmp_watermark := some w }
        = Except.ok c')
  ∧ (w ∉ c.hrmp_inbound.valid_watermarks →
      c.check_modifications m
          = Except.error (ModificationError.DisallowedHrmpWatermark w)
      ∧ c.apply_modifications m
          = Except.error (ModificationError.DisallowedHrmpWatermark w)) := by
  refine ⟨?_, ?_, ?_⟩
  · intro c' h
    obtain ⟨wms, channels, ump, umpb, dmp, cu, h1, _, _, _, _, _, hc'⟩ :=
      apply_modifications_ok_decomp c m c' h
    rw [hm] at h1
    cases hp : position c.hrmp_inbound.valid_watermarks w with
    | none =>
      simp only [applyWatermark, hp] at h1
      exact Except.noConfusion h1
    | some pos =>
      simp only [applyWatermark, hp] at h1
      injection h1 with h1
      rw [hc']
      show wms = _
      rw [← h1]
      exact drop_position_sorted c.hrmp_inbound.valid_watermarks w pos hsorted hp
  · intro hw
    cases hp : position c.hrmp_inbound.valid_watermarks w with
    | none => exact absurd ((position_eq_none_iff _ _).mp hp) (by simp [hw])
    | some pos =>
      rw [Constraints.apply_modifications]
      simp only [ConstraintModifications.identity, applyWatermark, hp,
        applyOutbound, subOrErr_self_ok, applyCodeUpgrade, Except.bind]
      exact ⟨_, rfl⟩
  · intro hw
    have hp : position c.hrmp_inbound.valid_watermarks w = none :=
      (position_eq_none_iff _ _).mpr hw
    constructor
    · rw [Constraints.check_modifications]
      simp [watermarkCheckCore, hm, hp, Except.bind]
    · rw [Constraints.apply_modifications]
      simp [applyWatermark, hm, hp, Except.bind]

/-- Witness for C3 at the spec's example: watermarks `[5, 10, 15]`,
`w = 10` succeeds yielding `[15]`, `w = 7` fails. -/
theorem c3_watermark_witness :
    (∃ c', SampleC.apply_modifications
        { ConstraintModifications.identity with hrmp_watermark := some 10 }
      = Except.ok c')
    ∧ SampleC.check_modifications SampleM7
        = Except.error (ModificationError.DisallowedHrmpWatermark 7)
    ∧ SampleC.apply_modifications SampleM10 = Except.ok SampleCAfter10
    ∧ SampleCAfter10.hrmp_inbound.valid_watermarks = [15] :=
  ⟨(c3_watermark SampleC SampleM10 10 (by decide) rfl).2.1 (by decide),
   ((c3_watermark SampleC SampleM7 7 (by decide) rfl).2.2 (by decide)).1,
   by rfl,
   (c3_watermark SampleC SampleM10 10 (by decide) rfl).1 SampleCAfter10 (by rfl)⟩

/-- Claim C7: `stack` overrides the scalar fields from the newer value when
present, adds the per-destination outbound counters and the UMP/DMP
counters, and takes the disjunction of the code-upgrade flags; with
conflicting watermark overrides the two stacking orders each retain the
newer value and hence differ. -/
theorem c7_stack_characterization (a b : ConstraintModifications)
    (hnd : (b.outbound_hrmp.map Prod.fst).Nodup) :
    ((a.stack b).required_parent
      = match b.required_parent with
        | some p => some p
        | none => a.required_parent)
  ∧ ((a.stack b).hrmp_watermark
      = match b.hrmp_watermark with
        | some w => some w
        | none => a.hrmp_watermark)
  ∧ (∀ id, modAt (a.stack b).outbound_hrmp id
      = addMod (modAt a.outbound_hrmp id) (modAt b.outbound_hrmp id))
  ∧ (a.stack b).ump_messages_sent = a.ump_messages_sent + b.ump_messages_sent
  ∧ (a.stack b).ump_bytes_sent = a.ump_bytes_sent + b.ump_bytes_sent
  ∧ (a.stack b).dmp_messages_processed
      = a.dmp_messages_processed + b.dmp_messages_processed
  ∧ ((a.stack b).code_upgrade_applied
      = (a.code_upgrade_applied || b.code_upgrade_applied))
  ∧ (∀ x y, a.hrmp_watermark = some x → b.hrmp_watermark = some y → x ≠ y →
      (a.stack b).hrmp_watermark = some y
      ∧ (b.stack a).hrmp_watermark = some x
      ∧ a.stack b ≠ b.stack a) := by
  refine ⟨rfl, rfl, ?_, rfl, rfl, rfl, rfl, ?_⟩
  · exact fun id => modAt_stackMap b.outbound_hrmp a.outbound_hrmp hnd id
  · intro x y hx hy hxy
    refine ⟨?_, ?_, ?_⟩
    · simp [ConstraintModifications.stack, hy]
    · simp [ConstraintModifications.stack, hx]
    · intro heq
      have hw := congrArg ConstraintModifications.hrmp_watermark heq
      simp [ConstraintModifications.stack, hx, hy] at hw
      exact hxy hw.symm

/-- Witness for C7 at concrete inputs with conflicting watermarks `3`/`4`. -/
theorem c7_stack_characterization_witness :
    modAt (StackA.stack StackB).outbound_hrmp 1
        = addMod (modAt StackA.outbound_hrmp 1) (modAt StackB.outbound_hrmp 1)
    ∧ (StackA.stack StackB).hrmp_watermark = some 4
    ∧ (StackB.stack StackA).hrmp_watermark = some 3
    ∧ StackA.stack StackB ≠ StackB.stack StackA := by
  obtain ⟨-, -, hmod, -, -, -, -, hconc⟩ :=
    c7_stack_characterization StackA StackB (by decide)
  obtain ⟨h1, h2, h3⟩ := hconc 3 4 rfl rfl (by decide)
  exact ⟨hmod 1, h1, h2, h3⟩

/-- Claim C5: with `code_upgrade_applied` set (and every other check passing), a
missing `future_validation_code` makes both `check_modifications` and
`apply_modifications` fail with `AppliedNonexistentCodeUpgrade`, while a
present upgrade `(n, h)` makes `apply_modifications` succeed, adopting hash
`h` and clearing the pending upgrade. -/
theorem c5_code_upgrade (c : Constraints) (m : ConstraintModifications)
    (hcode : m.code_upgrade_applied = true)
    (hnd : (m.outbound_hrmp.map Prod.fst).Nodup)
    (hrest : c.check_modifications { m with code_upgrade_applied := false }
      = Except.ok ()) :
    (c.future_validation_code = none →
      c.check_modifications m
          = Except.error ModificationError.AppliedNonexistentCodeUpgrade
      ∧ c.apply_modifications m
          = Except.error ModificationError.AppliedNonexistentCodeUpgrade)
  ∧ (∀ n h, c.future_validation_code = some (n, h) →
      ∃ c', c.apply_modifications m = Except.ok c'
        ∧ c'.validation_code_hash = h
        ∧ c'.future_validation_code = none) := by
  rw [Constraints.check_modifications] at hrest
  dsimp only at hrest
  rw [bind_eq_ok_iff] at hrest
  obtain ⟨u1, hw, hrest⟩ := hrest
  obtain ⟨⟩ := u1
  rw [bind_eq_ok_iff] at hrest
  obtain ⟨u2, ho, hrest⟩ := hrest
  obtain ⟨⟩ := u2
  rw [bind_eq_ok_iff] at hrest
  obtain ⟨v3, h3, hrest⟩ := hrest
  rw [bind_eq_ok_iff] at hrest
  obtain ⟨v4, h4, hrest⟩ := hrest
  rw [bind_eq_ok_iff] at hrest
  obtain ⟨v5, h5, -⟩ := hrest
  obtain ⟨wms, hwa⟩ := (map_unit_eq_ok _).mp (by rw [← watermark_agree]; exact hw)
  obtain ⟨chs, hoa⟩ := (map_unit_eq_ok _).mp
    (by rw [← outbound_agree m.outbound_hrmp c.hrmp_channels_out c.hrmp_channels_out
        (fun _ _ => rfl) hnd]
        exact ho)
  constructor
  · intro hn
    constructor
    · rw [Constraints.check_modifications]
      simp [Except.bind, hw, ho, h3, h4, h5, hn, hcode, codeUpgradeCheck]
    · rw [Constraints.apply_modifications]
      simp [Except.bind, hwa, hoa, h3, h4, h5, applyCodeUpgrade, hn, hcode]
  · intro n h hfv
    rw [Constraints.apply_modifications]
    simp only [Except.bind, hwa, hoa, h3, h4, h5, hcode, hfv, applyCodeUpgrade]
    exact ⟨_, rfl, rfl, rfl⟩

/-- Witness for C5: the spec's examples, with a pending upgrade `(50, 77)`
and without one. -/
theorem c5_code_upgrade_witness :
    (SampleC.check_modifications SampleMCode
        = Except.error ModificationError.AppliedNonexistentCodeUpgrade)
    ∧ ∃ c', SampleC50.apply_modifications SampleMCode = Except.ok c'
        ∧ c'.validation_code_hash = 77 ∧ c'.future_validation_code = none :=
  ⟨((c5_code_upgrade SampleC SampleMCode rfl (by decide) (by rfl)).1 rfl).1,
   (c5_code_upgrade SampleC50 SampleMCode rfl (by decide) (by rfl)).2 50 77 rfl⟩

/-- Claim C4: for an outbound-HRMP entry `(id, em)` reached by the loop (all
earlier entries passing, watermark check passing, keys unique): a missing
channel yields `NoSuchHrmpChannel id`, insufficient bytes yields
`HrmpBytesOverflow` with the exact remaining/submitted values, insufficient
messages yields `HrmpMessagesOverflow` likewise, in both
`check_modifications` and `apply_modifications`; subtraction is checked, and
on success the resulting channel budgets are reduced by exactly the
submitted amounts. -/
theorem c4_outbound (c : Constraints) (m : ConstraintModifications)
    (id : ParaId) (em : OutboundHrmpChannelModification)
    (pre rest : List (ParaId × OutboundHrmpChannelModification))
    (hsplit : m.outbound_hrmp = pre ++ (id, em) :: rest)
    (hnd : (m.outbound_hrmp.map Prod.fst).Nodup)
    (hwm : watermarkCheckCore c.hrmp_inbound.valid_watermarks m.hrmp_watermark
      = Except.ok ())
    (hpre : checkOutbound c.hrmp_channels_out pre = Except.ok ()) :
    (alookup c.hrmp_channels_out id = none →
      c.check_modifications m
          = Except.error (ModificationError.NoSuchHrmpChannel id)
      ∧ c.apply_modifications m
          = Except.error (ModificationError.NoSuchHrmpChannel id))
  ∧ (∀ lim, alookup c.hrmp_channels_out id = some lim →
      (lim.bytes_remaining < em.bytes_submitted →
        c.check_modifications m = Except.error (ModificationError.HrmpBytesOverflow
          id lim.bytes_remaining em.bytes_submitted)
        ∧ c.apply_modifications m = Except.error (ModificationError.HrmpBytesOverflow
          id lim.bytes_remaining em.bytes_submitted))
      ∧ (em.bytes_submitted ≤ lim.bytes_remaining →
          lim.messages_remaining < em.messages_submitted →
          c.check_modifications m
              = Except.error (ModificationError.HrmpMessagesOverflow
                id lim.messages_remaining em.messages_submitted)
          ∧ c.apply_modifications m
              = Except.error (ModificationError.HrmpMessagesOverflow
                id lim.messages_remaining em.messages_submitted))
      ∧ (∀ c', c.apply_modifications m = Except.ok c' →
          alookup c'.hrmp_channels_out id
            = some ⟨lim.bytes_remaining - em.bytes_submitted,
                    lim.messages_remaining - em.messages_submitted⟩)) := by
  have hkeys : m.outbound_hrmp.map Prod.fst
      = pre.map Prod.fst ++ (id :: rest.map Prod.fst) := by
    rw [hsplit]
    simp
  have hndk := hnd
  rw [hkeys, List.nodup_append] at hndk
  obtain ⟨hndpre, hndx, hdisj⟩ := hndk
  have hidpre : id ∉ pre.map Prod.fst :=
    fun hmem => hdisj hmem (List.mem_cons_self id (rest.map Prod.fst))
  obtain ⟨wms, hwa⟩ := (map_unit_eq_ok _).mp (by rw [← watermark_agree]; exact hwm)
  obtain ⟨ch1, hpa⟩ := (map_unit_eq_ok _).mp
    (by rw [← outbound_agree pre c.hrmp_channels_out c.hrmp_channels_out
        (fun _ _ => rfl) hndpre]
        exact hpre)
  have hch1 : alookup ch1 id = alookup c.hrmp_channels_out id :=
    applyOutbound_alookup_not_mem pre c.hrmp_channels_out ch1 hpa id hidpre
  have hcheck_err : ∀ e,
      checkOutbound c.hrmp_channels_out ((id, em) :: rest) = Except.error e →
      c.check_modifications m = Except.error e := by
    intro e he
    rw [Constraints.check_modifications, hsplit, checkOutbound_append]
    simp [Except.bind, hwm, hpre, he]
  have happly_err : ∀ e,
      applyOutbound ch1 ((id, em) :: rest) = Except.error e →
      c.apply_modifications m = Except.error e := by
    intro e he
    rw [Constraints.apply_modifications, hsplit, applyOutbound_append]
    simp [Except.bind, hwa, hpa, he]
  refine ⟨?_, ?_⟩
  · intro hn
    constructor
    · exact hcheck_err _ (by rw [checkOutbound]; simp [hn])
    · exact happly_err _ (by rw [applyOutbound]; simp [hch1, hn])
  · intro lim hlim
    refine ⟨?_, ?_, ?_⟩
    · intro hlt
      have hsub : checkedSub lim.bytes_remaining em.bytes_submitted = none :=
        (checkedSub_eq_none_iff _ _).mpr hlt
      constructor
      · exact hcheck_err _ (by rw [checkOutbound]; simp [hlim, hsub])
      · exact happly_err _ (by rw [applyOutbound]; simp [hch1, hlim, hsub])
    · intro hble hlt
      have hsubb : checkedSub lim.bytes_remaining em.bytes_submitted
          = some (lim.bytes_remaining - em.bytes_submitted) :=
        (checkedSub_eq_some_iff _ _ _).mpr ⟨hble, rfl⟩
      have hsubm : checkedSub lim.messages_remaining em.messages_submitted = none :=
        (checkedSub_eq_none_iff _ _).mpr hlt
      constructor
      · exact hcheck_err _ (by rw [checkOutbound]; simp [hlim, hsubb, hsubm])
      · exact happly_err _ (by rw [applyOutbound]; simp [hch1, hlim, hsubb, hsubm])
    · intro c' happ
      obtain ⟨wms', channels, ump, umpb, dmp, cu, -, h2, -, -, -, -, hc'⟩ :=
        apply_modifications_ok_decomp c m c' happ
      have hmem : (id, em) ∈ m.outbound_hrmp := by
        rw [hsplit]
        exact List.mem_append_right pre (List.mem_cons_self (id, em) rest)
      obtain ⟨-, -, hres⟩ := applyOutbound_alookup_mem m.outbound_hrmp
        c.hrmp_channels_out channels h2 hnd id em hmem lim hlim
      rw [hc']
      exact hres

/-- Witness for C4: a missing channel, the spec's 100/101 byte-overflow
example, and the exact-budget success example. -/
theorem c4_outbound_witness :
    (SampleC.check_modifications SampleMNoChan
        = Except.error (ModificationError.NoSuchHrmpChannel 3))
    ∧ (SampleC.check_modifications SampleMOver
        = Except.error (ModificationError.HrmpBytesOverflow 1 100 101))
    ∧ SampleC.apply_modifications SampleMFull = Except.ok SampleCAfterFull
    ∧ alookup SampleCAfterFull.hrmp_channels_out 1 = some ⟨0, 1⟩ := by
  refine ⟨?_, ?_, by rfl, ?_⟩
  · exact ((c4_outbound SampleC SampleMNoChan 3 ⟨1, 0⟩ [] [] rfl (by decide)
      rfl rfl).1 rfl).1
  · exact (((c4_outbound SampleC SampleMOver 1 ⟨101, 0⟩ [] [] rfl (by decide)
      rfl rfl).2 ⟨100, 3⟩ rfl).1 (by decide)).1
  · exact ((c4_outbound SampleC SampleMFull 1 ⟨100, 2⟩ [] [] rfl (by decide)
      rfl rfl).2 ⟨100, 3⟩ rfl).2.2 SampleCAfterFull (by rfl)

/-! ### The horizontal-message aggregation of `Fragment::new` -/

theorem horizontal_fold_modAt (msgs : List OutboundHrmpMessage) :
    ∀ (acc : List (ParaId × OutboundHrmpChannelModification)) (id : ParaId),
      modAt (msgs.foldl
          (fun a message => addToMap a message.recipient ⟨message.data.length, 1⟩) acc) id
        = addMod (modAt acc id)
            ⟨((msgs.filter (fun msg => msg.recipient = id)).map
                (fun msg => msg.data.length)).sum,
             (msgs.filter (fun msg => msg.recipient = id)).length⟩ := by
  induction msgs with
  | nil =>
    intro acc id
    simp [addMod_zero_right]
  | cons msg rest ih =>
    intro acc id
    rw [List.foldl_cons]
    rw [ih (addToMap acc msg.recipient ⟨msg.data.length, 1⟩) id]
    by_cases h : msg.recipient = id
    · rw [h, modAt_addToMap_self]
      rw [List.filter_cons_of_pos (by simp [h])]
      simp [addMod]
      omega
    · rw [modAt_addToMap_ne acc msg.recipient id _ (fun hh => h hh.symm)]
      rw [List.filter_cons_of_neg (by simp [h])]

theorem horizontal_fold_isSome (msgs : List OutboundHrmpMessage) :
    ∀ (acc : List (ParaId × OutboundHrmpChannelModification)) (id : ParaId),
      ((alookup (msgs.foldl
          (fun a message => addToMap a message.recipient ⟨message.data.length, 1⟩)
          acc) id).isSome
        ↔ (alookup acc id).isSome
          ∨ id ∈ msgs.map (fun msg => msg.recipient)) := by
  induction msgs with
  | nil =>
    intro acc id
    simp
  | cons msg rest ih =>
    intro acc id
    rw [List.foldl_cons]
    rw [ih (addToMap acc msg.recipient ⟨msg.data.length, 1⟩) id]
    rw [alookup_isSome_iff, mem_keys_addToMap_iff, ← alookup_isSome_iff]
    simp only [List.map_cons, List.mem_cons]
    tauto

/-- Claim C9: the `ConstraintModifications` derived by `Fragment::new` equal the
reference definition: the declared head data and watermark, the
per-recipient aggregation of horizontal messages (sum of byte lengths and
count), the count and total length of upward messages, the declared
processed-downward count, and `code_upgrade_applied` exactly when a pending
upgrade's activation height is at most the relay-parent's number. -/
theorem c9_fragment_modifications (rp : RelayChainBlockInfo) (oc : Constraints)
    (cand : ProspectiveCandidate) :
    (fragmentModifications rp oc cand).required_parent
        = some cand.commitments.head_data
  ∧ (fragmentModifications rp oc cand).hrmp_watermark
        = some cand.commitments.hrmp_watermark
  ∧ (∀ id, modAt (fragmentModifications rp oc cand).outbound_hrmp id
      = ⟨((cand.commitments.horizontal_messages.filter
            (fun msg => msg.recipient = id)).map (fun msg => msg.data.length)).sum,
         (cand.commitments.horizontal_messages.filter
            (fun msg => msg.recipient = id)).length⟩)
  ∧ (∀ id, (alookup (fragmentModifications rp oc cand).outbound_hrmp id).isSome
      ↔ id ∈ cand.commitments.horizontal_messages.map (fun msg => msg.recipient))
  ∧ (fragmentModifications rp oc cand).ump_messages_sent
      = cand.commitments.upward_messages.length
  ∧ (fragmentModifications rp oc cand).ump_bytes_sent
      = (cand.commitments.upward_messages.map List.length).sum
  ∧ (fragmentModifications rp oc cand).dmp_messages_processed
      = cand.commitments.processed_downward_messages
  ∧ ((fragmentModifications rp oc cand).code_upgrade_applied = true
      ↔ ∃ n h, oc.future_validation_code = some (n, h) ∧ n ≤ rp.number) := by
  refine ⟨rfl, rfl, ?_, ?_, rfl, rfl, rfl, ?_⟩
  · intro id
    show modAt (cand.commitments.horizontal_messages.foldl
      (fun a message => addToMap a message.recipient ⟨message.data.length, 1⟩) []) id = _
    rw [horizontal_fold_modAt cand.commitments.horizontal_messages [] id]
    rw [show modAt [] id = ⟨0, 0⟩ from rfl, addMod_zero_left]
  · intro id
    show (alookup (cand.commitments.horizontal_messages.foldl
      (fun a message => addToMap a message.recipient ⟨message.data.length, 1⟩) []) id).isSome ↔ _
    rw [horizontal_fold_isSome cand.commitments.horizontal_messages [] id]
    simp [alookup]
  · show (match oc.future_validation_code with
      | some nh => decide (nh.1 ≤ rp.number)
      | none => false) = true ↔ _
    cases hf : oc.future_validation_code with
    | none => simp
    | some nh =>
      simp only [decide_eq_true_eq]
      constructor
      · intro hle
        exact ⟨nh.1, nh.2, rfl, hle⟩
      · rintro ⟨n, h, hnh, hle⟩
        injection hnh with hnh
        rw [hnh]
        exact hle

/-- Claim C2: the shared validation routine performs exactly three checks in
order — persisted-validation-data recomputed from `required_parent`, the
relay-parent's number and storage root, and `max_pov_size` (cast to `u32`);
the validation-code hash; and `check_modifications` wrapped in
`OutputsInvalid` — returning the first failure with the stated payloads, and
`Fragment::new` returns a fragment exactly when this routine succeeds. -/
theorem c2_validation_routine (c : Constraints) (rp : RelayChainBlockInfo)
    (cand : ProspectiveCandidate) (m : ConstraintModifications) :
    (validate_against_constraints c rp cand m = Except.ok ()
      ↔ ({ parent_head := c.required_parent
           relay_parent_number := rp.number
           relay_parent_storage_root := rp.storage_root
           max_pov_size := c.max_pov_size % 2 ^ 32 } : PersistedValidationData)
            = cand.persisted_validation_data
        ∧ c.validation_code_hash = cand.validation_code_hash
        ∧ c.check_modifications m = Except.ok ())
  ∧ (expected_pvd c rp ≠ cand.persisted_validation_data →
      validate_against_constraints c rp cand m
        = Except.error (FragmentValidityError.PersistedValidationDataMismatch
            (expected_pvd c rp) cand.persisted_validation_data))
  ∧ (expected_pvd c rp = cand.persisted_validation_data →
      c.validation_code_hash ≠ cand.validation_code_hash →
      validate_against_constraints c rp cand m
        = Except.error (FragmentValidityError.ValidationCodeMismatch
            c.validation_code_hash cand.validation_code_hash))
  ∧ (∀ e, expected_pvd c rp = cand.persisted_validation_data →
      c.validation_code_hash = cand.validation_code_hash →
      c.check_modifications m = Except.error e →
      validate_against_constraints c rp cand m
        = Except.error (FragmentValidityError.OutputsInvalid e))
  ∧ ((∃ f, Fragment.new rp c cand = Except.ok f)
      ↔ validate_against_constraints c rp cand
          (fragmentModifications rp c cand) = Except.ok ())
  ∧ (∀ f, Fragment.new rp c cand = Except.ok f →
      f = { relay_parent := rp, operating_constraints := c, candidate := cand,
            modifications := fragmentModifications rp c cand }) := by
  have hexp : expected_pvd c rp
      = { parent_head := c.required_parent
          relay_parent_number := rp.number
          relay_parent_storage_root := rp.storage_root
          max_pov_size := c.max_pov_size % 2 ^ 32 } := rfl
  refine ⟨?_, ?_, ?_, ?_, ?_, ?_⟩
  · constructor
    · intro hv
      rw [validate_against_constraints] at hv
      by_cases h1 : expected_pvd c rp = cand.persisted_validation_data
      · by_cases h2 : c.validation_code_hash = cand.validation_code_hash
        · cases hc : c.check_modifications m with
          | ok u =>
            obtain ⟨⟩ := u
            exact ⟨by rw [← hexp]; exact h1, h2, rfl⟩
          | error e => simp [h1, h2, hc] at hv
        · simp [h1, h2] at hv
      · simp [h1] at hv
    · rintro ⟨h1, h2, h3⟩
      have h1' : expected_pvd c rp = cand.persisted_validation_data := by
        rw [hexp]
        exact h1
      simp [validate_against_constraints, h1', h2, h3]
  · intro h1
    simp [validate_against_constraints, h1]
  · intro h1 h2
    simp [validate_against_constraints, h1, h2]
  · intro e h1 h2 hc
    simp [validate_against_constraints, h1, h2, hc]
  · cases hv : validate_against_constraints c rp cand
        (fragmentModifications rp c cand) with
    | ok u =>
      obtain ⟨⟩ := u
      simp [Fragment.new, hv]
    | error e =>
      simp [Fragment.new, hv]
  · intro f hf
    rw [Fragment.new] at hf
    cases hv : validate_against_constraints c rp cand
        (fragmentModifications rp c cand) with
    | ok u =>
      simp only [hv] at hf
      injection hf with hf
      exact hf.symm
    | error e =>
      simp only [hv] at hf
      exact Except.noConfusion hf

/-- Witness for C2 at a concrete valid candidate. -/
theorem c2_validation_routine_witness :
    validate_against_constraints TinyC SampleRP SampleCand
        (fragmentModifications SampleRP TinyC SampleCand) = Except.ok ()
    ∧ (∃ f, Fragment.new SampleRP TinyC SampleCand = Except.ok f) := by
  have h := c2_validation_routine TinyC SampleRP SampleCand
    (fragmentModifications SampleRP TinyC SampleCand)
  have hok := h.1.mpr ⟨by decide, rfl, by rfl⟩
  exact ⟨hok, h.2.2.2.2.1.mpr hok⟩

/-- Claim C10, counterexample: two `Constraints` values differing only in
`max_hrmp_num_per_candidate` give *different* `Fragment::new` results on a
candidate both accept, because the fragment stores its operating
constraints — so the claim's "identical results" fails for `Fragment::new`
even though the validity decision is unaffected. -/
theorem c10_counterexample :
    TinyC.ump_remaining = TinyC'.ump_remaining
    ∧ TinyC.ump_remaining_bytes = TinyC'.ump_remaining_bytes
    ∧ TinyC.dmp_remaining_messages = TinyC'.dmp_remaining_messages
    ∧ TinyC.hrmp_inbound = TinyC'.hrmp_inbound
    ∧ TinyC.hrmp_channels_out = TinyC'.hrmp_channels_out
    ∧ TinyC.max_pov_size = TinyC'.max_pov_size
    ∧ TinyC.required_parent = TinyC'.required_parent
    ∧ TinyC.validation_code_hash = TinyC'.validation_code_hash
    ∧ TinyC.go_ahead = TinyC'.go_ahead
    ∧ TinyC.upgrade_restriction = TinyC'.upgrade_restriction
    ∧ TinyC.future_validation_code = TinyC'.future_validation_code
    ∧ TinyC.max_hrmp_num_per_candidate ≠ TinyC'.max_hrmp_num_per_candidate
    ∧ Fragment.new SampleRP TinyC SampleCand ≠ Fragment.new SampleRP TinyC' SampleCand := by
  decide

/-- Claim C10, amended: `check_modifications` and `validate_against_constraints`
never read `max_hrmp_num_per_candidate`, `go_ahead`, or
`upgrade_restriction` — two `Constraints` values equal in every other field
give identical results there, and `Fragment::new` gives the same errors and
success up to the stored operating constraints (in particular, declaring
more HRMP messages than `max_hrmp_num_per_candidate` is never rejected on
that ground). -/
theorem c10_ignored_fields (c c' : Constraints)
    (h1 : c.ump_remaining = c'.ump_remaining)
    (h2 : c.ump_remaining_bytes = c'.ump_remaining_bytes)
    (h3 : c.dmp_remaining_messages = c'.dmp_remaining_messages)
    (h4 : c.hrmp_inbound = c'.hrmp_inbound)
    (h5 : c.hrmp_channels_out = c'.hrmp_channels_out)
    (h6 : c.max_pov_size = c'.max_pov_size)
    (h7 : c.required_parent = c'.required_parent)
    (h8 : c.validation_code_hash = c'.validation_code_hash)
    (h9 : c.future_validation_code = c'.future_validation_code) :
    (∀ m, c.check_modifications m = c'.check_modifications m)
  ∧ (∀ rp cand m, validate_against_constraints c rp cand m
      = validate_against_constraints c' rp cand m)
  ∧ (∀ rp cand, (∀ e, Fragment.new rp c cand = Except.error e
        ↔ Fragment.new rp c' cand = Except.error e)
      ∧ (∀ f, Fragment.new rp c cand = Except.ok f →
          Fragment.new rp c' cand
            = Except.ok { f with operating_constraints := c' })) := by
  have hcheck : ∀ m, c.check_modifications m = c'.check_modifications m := by
    intro m
    rw [Constraints.check_modifications, Constraints.check_modifications,
      h1, h2, h3, h4, h5, h9]
  have hexp : ∀ rp, expected_pvd c rp = expected_pvd c' rp := by
    intro rp
    rw [expected_pvd, expected_pvd, h6, h7]
  have hval : ∀ rp cand m, validate_against_constraints c rp cand m
      = validate_against_constraints c' rp cand m := by
    intro rp cand m
    rw [validate_against_constraints, validate_against_constraints,
      hexp rp, h8, hcheck m]
  have hmods : ∀ rp cand, fragmentModifications rp c cand
      = fragmentModifications rp c' cand := by
    intro rp cand
    rw [fragmentModifications, fragmentModifications, h9]
  refine ⟨hcheck, hval, ?_⟩
  intro rp cand
  have hv := hval rp cand (fragmentModifications rp c cand)
  constructor
  · intro e
    rw [Fragment.new, Fragment.new, ← hmods rp cand, ← hv]
    cases validate_against_constraints c rp cand (fragmentModifications rp c cand) with
    | ok u => simp
    | error e' => simp
  · intro f hf
    rw [Fragment.new] at hf
    rw [Fragment.new, ← hmods rp cand, ← hv]
    cases hvv : validate_against_constraints c rp cand
        (fragmentModifications rp c cand) with
    | error e =>
      simp only [hvv] at hf
      exact Except.noConfusion hf
    | ok u =>
      simp only [hvv] at hf
      injection hf with hf
      simp only [hvv]
      rw [← hf]

/-- Witness for the amended C10 at concrete inputs. -/
theorem c10_ignored_fields_witness :
    TinyC.check_modifications ConstraintModifications.identity
        = TinyC'.check_modifications ConstraintModifications.identity
    ∧ validate_against_constraints TinyC SampleRP SampleCand
          ConstraintModifications.identity
        = validate_against_constraints TinyC' SampleRP SampleCand
          ConstraintModifications.identity
    ∧ Fragment.new SampleRP TinyC' SampleCand
        = Except.ok { relay_parent := SampleRP
                      operating_constraints := TinyC'
                      candidate := SampleCand
                      modifications := fragmentModifications SampleRP TinyC SampleCand } := by
  have h := c10_ignored_fields TinyC TinyC' rfl rfl rfl rfl rfl rfl rfl rfl rfl
  refine ⟨h.1 ConstraintModifications.identity,
    h.2.1 SampleRP SampleCand ConstraintModifications.identity, ?_⟩
  exact (h.2.2 SampleRP SampleCand).2
    { relay_parent := SampleRP, operating_constraints := TinyC,
      candidate := SampleCand,
      modifications := fragmentModifications SampleRP TinyC SampleCand } (by rfl)

end Staging
